import Mathlib

/-!
Verification of the GitLab instance-variable reconciler
(plugins/modules/gitlab_instance_variable.py).

The module reconciles a desired list of CI/CD instance variables against
the remote GitLab state.  The embedding below translates the functions of
the source file into Lean: Python dicts holding a variable's attributes
become the `Variable` record, the remote GitLab server becomes a list of
such records threaded through the primitive API operations, and the
exception-based control flow (`try create / except: update`) becomes
`Option`-valued state transformers.
-/

set_option autoImplicit false

namespace GLIV

/-- String constant for the dict field name `key`. -/
def sKey : String := "key"

/-- String constant for the dict field name `name`. -/
def sName : String := "name"

/-- String constant for the dict field name `value`. -/
def sValue : String := "value"

/-- String constant for the dict field name `environment_scope`. -/
def sScope : String := "environment_scope"

/-- String constant for the dict field name `variable_type`. -/
def sType : String := "variable_type"

/-- String constant for the default environment scope `*`. -/
def scopeStar : String := "*"

/-- String constant for the default variable type `env_var`. -/
def typeEnvVar : String := "env_var"

/-- String constant for Python's `str(None)`. -/
def strNone : String := "None"

/-- Error message of the value validation in `main` (line 370 of the source). -/
def msgValueRequired : String := "value parameter is required in state present"

/-- A fully populated variable dict, as produced by the normalisation loop of
`native_python_main` (lines 253-263) and by `filter_returned_variables` on the
remote side: the six documented attributes.  The Python field `protected` is
spelled `protected_` because `protected` is a Lean keyword. -/
structure Variable where
  key : String
  value : String
  masked : Bool
  protected_ : Bool
  environment_scope : String
  variable_type : String
deriving DecidableEq, Repr

/-- A raw entry of the module's `variables` parameter before the normalisation
loop: `name` is required, everything else optional (lines 328-335). -/
structure RawVariable where
  name : String
  value : Option String
  masked : Option Bool
  protected_ : Option Bool
  environment_scope : Option String
  variable_type : Option String
deriving DecidableEq, Repr

/-- A variable dict after the `state == 'absent'` branch popped `value` and
`variable_type` (lines 292-297): the four remaining fields. -/
structure SVar where
  key : String
  masked : Bool
  protected_ : Bool
  environment_scope : String
deriving DecidableEq, Repr

/-- An entry of one of the four result lists: the present-state branches put
full six-field dicts there, the absent-state branch stripped four-field ones. -/
inductive Entry where
  | full (v : Variable)
  | stripped (s : SVar)
deriving DecidableEq, Repr

/-- The `return_value` dict of `native_python_main`: four lists of entries. -/
structure NOut where
  added : List Entry
  updated : List Entry
  removed : List Entry
  untouched : List Entry
deriving DecidableEq, Repr

/-- The final payload built by `main` (lines 383-387): four lists of the
results of `.get('key')` respectively `.get(untouched_key_name)`, hence lists
of optional strings (`None` when the queried field is absent). -/
structure Payload where
  added : List (Option String)
  updated : List (Option String)
  removed : List (Option String)
  untouched : List (Option String)
deriving DecidableEq, Repr

/-- The `state` module parameter (line 336). -/
inductive St where
  | present
  | absent
deriving DecidableEq, Repr

/-- Python `str()` as applied to the optional `value` field in line 255:
`str(None)` is the string `None`. -/
def pyStr : Option String → String
  | none => strNone
  | some s => s

/-- Dict field lookup `var.get(field)` on a full variable dict, for the string
valued fields.  The boolean fields `masked` and `protected` are never queried
by field name anywhere in the source, so they are not representable here;
`name` does not exist on a full dict (the normalisation loop popped it), so
the lookup yields `none` for it, exactly as `dict.get` yields `None`. -/
def varGet (v : Variable) (field : String) : Option String :=
  if field = sKey then some v.key
  else if field = sValue then some v.value
  else if field = sScope then some v.environment_scope
  else if field = sType then some v.variable_type
  else none

/-- Dict field lookup on a stripped (absent-state) dict. -/
def sVarGet (s : SVar) (field : String) : Option String :=
  if field = sKey then some s.key
  else if field = sScope then some s.environment_scope
  else none

/-- Dict field lookup on a result-list entry. -/
def entryGet (e : Entry) (field : String) : Option String :=
  match e with
  | Entry.full v => varGet v field
  | Entry.stripped s => sVarGet s field

/-- The identity of a variable for key/scope matching: the (key,
environment_scope) pair (spec section 3). -/
def pairOf (v : Variable) : String × String :=
  (v.key, v.environment_scope)

/-- Boolean test used by the remote API model: two variables collide iff they
agree on key and environment scope. -/
def sameKeyScope (a b : Variable) : Bool :=
  decide (a.key = b.key) && decide (a.environment_scope = b.environment_scope)

/-- The `state == 'absent'` branch pops `value` and `variable_type` from a
dict (lines 292-297); the remaining four fields. -/
def stripVar (v : Variable) : SVar :=
  { key := v.key
    masked := v.masked
    protected_ := v.protected_
    environment_scope := v.environment_scope }

/-- The normalisation loop of `native_python_main` (lines 253-263): rename
`name` to `key`, coerce `value` through `str`, default `protected`, `masked`,
`environment_scope` and `variable_type`. -/
def normalizeItem (r : RawVariable) : Variable :=
  { key := r.name
    value := pyStr r.value
    masked := r.masked.getD false
    protected_ := r.protected_.getD false
    environment_scope := r.environment_scope.getD scopeStar
    variable_type := r.variable_type.getD typeEnvVar }

/-- Modelled from the spec: the external API client's paginated listing
(spec section 6, wire contract).  Page `i` of the remote variable list with
the client's default page size of 20 entries. -/
def paginate (s : List Variable) (page : Nat) : List Variable :=
  (s.drop ((page - 1) * 20)).take 20

/-- The fetch loop of `GitlabInstanceVariables.list_all_instance_variables`
(lines 172-180): starting from the given page, append pages while they are
non-empty.  The Python loop has no fuel parameter; the fuel here only bounds
the recursion and is irrelevant as soon as it exceeds the first empty page
(the loop terminates in reality precisely because such a page exists). -/
def listLoop (fetch : Nat → List Variable) : Nat → Nat → List Variable
  | 0, _ => []
  | fuel + 1, page =>
    let varsPage := fetch page
    if varsPage = [] then [] else varsPage ++ listLoop fetch fuel (page + 1)

/-- `list_all_instance_variables`: run the fetch loop from page 1. -/
def list_all_instance_variables (fetch : Nat → List Variable) (fuel : Nat) : List Variable :=
  listLoop fetch fuel 1

/-- Listing the remote server state: the pagination loop applied to the pages
of the server's variable list, with ample fuel. -/
def listRemote (s : List Variable) : List Variable :=
  list_all_instance_variables (paginate s) (s.length + 1)

/-- Modelled from the spec: `filter_returned_variables` lives in the
collection's `module_utils/gitlab.py`, which is not part of the sources here.
Per the spec's data model it projects the API objects onto the six documented
attributes; since the embedded server already stores bare attribute records,
the projection is the identity. -/
def filter_returned_variables (l : List Variable) : List Variable := l

/-- `GitlabInstanceVariables.create_variable` (lines 182-196): in check mode
do nothing; otherwise POST the six attributes.  Modelled from the spec
(section 4.1, step 2): creation fails - the client raises - when the remote
already holds a variable with the same key and environment scope; `none`
models the raised exception. -/
def create_variable (chk : Bool) (s : List Variable) (v : Variable) : Option (List Variable) :=
  if chk then some s
  else if s.any (fun w => sameKeyScope w v) then none
  else some (s ++ [v])

/-- `GitlabInstanceVariables.delete_variable` (lines 205-209): in check mode
do nothing; otherwise delete by key with an environment-scope filter. -/
def delete_variable (chk : Bool) (s : List Variable) (key scope : String) : List Variable :=
  if chk then s
  else s.filter (fun w => !(decide (w.key = key) && decide (w.environment_scope = scope)))

/-- `GitlabInstanceVariables.update_variable` (lines 198-203): in check mode
do nothing; otherwise delete then create (no atomic edit exists). -/
def update_variable (chk : Bool) (s : List Variable) (v : Variable) : Option (List Variable) :=
  if chk then some s
  else create_variable chk (delete_variable chk s v.key v.environment_scope) v

/-- The apply loop of the `state == 'present'` branch (lines 270-277): for
each candidate try to create it, classifying it as added; a raised creation
error falls back to `update_variable`, classifying it as updated.  Returns the
final server state, the added list and the updated list; `none` models an
exception escaping the loop (an update failure is not caught). -/
def applyLoop (chk : Bool) : List Variable → List Variable → Option (List Variable × List Variable × List Variable)
  | s, [] => some (s, [], [])
  | s, v :: rest =>
    match create_variable chk s v with
    | some s2 =>
      match applyLoop chk s2 rest with
      | some t => some (t.1, v :: t.2.1, t.2.2)
      | none => none
    | none =>
      match update_variable chk s v with
      | some s2 =>
        match applyLoop chk s2 rest with
        | some t => some (t.1, t.2.1, v :: t.2.2)
        | none => none
      | none => none

/-- Total description of the real-mode apply loop used in proofs: processing
one candidate either appends it (no key/scope collision) or replaces the
colliding entries (delete then create).  `applyLoop false` is proved equal to
`some` of this function. -/
def applyTotal : List Variable → List Variable → List Variable × List Variable × List Variable
  | s, [] => (s, [], [])
  | s, v :: rest =>
    if s.any (fun w => sameKeyScope w v) then
      let t := applyTotal (s.filter (fun w => !sameKeyScope w v) ++ [v]) rest
      (t.1, t.2.1, v :: t.2.2)
    else
      let t := applyTotal (s ++ [v]) rest
      (t.1, v :: t.2.1, t.2.2)

/-- The `compare` function (lines 212-239): only state `present` fills the
three lists; `untouched` needs full dict equality, `updated` a match of the
pair obtained from the fields `name` and `environment_scope` against the
remote (key, environment_scope) pairs, everything else is `added`.  Returns
`(untouched, updated, added)` in the order of the source. -/
def compare (requested existing : List Variable) (state : St) :
    List Variable × List Variable × List Variable :=
  if state = St.present then
    let eks := existing.map (fun item => (varGet item sKey, varGet item sScope))
    requested.foldl
      (fun acc var =>
        if var ∈ existing then (acc.1 ++ [var], acc.2.1, acc.2.2)
        else if (varGet var sName, varGet var sScope) ∈ eks then
          (acc.1, acc.2.1 ++ [var], acc.2.2)
        else (acc.1, acc.2.1, acc.2.2 ++ [var]))
      ([], [], [])
  else ([], [], [])

/-- Lines 310-314 of `native_python_main`: in check mode the added, updated
and untouched lists are replaced by the `compare` results (the removed list is
kept); `changed` is set iff added, removed and updated together are
non-empty. -/
def assemble (chk : Bool) (cmp : List Variable × List Variable × List Variable)
    (addedE updatedE removedE : List Entry) (before after : List Variable) :
    Bool × NOut × List Variable × List Variable :=
  let rv : NOut :=
    if chk then
      { added := cmp.2.2.map Entry.full
        updated := cmp.2.1.map Entry.full
        removed := removedE
        untouched := cmp.1.map Entry.full }
    else
      { added := addedE, updated := updatedE, removed := removedE, untouched := [] }
  let changed := decide (0 < (rv.added ++ rv.removed ++ rv.updated).length)
  (changed, rv, before, after)

/-- The `state == 'present'` branch of `native_python_main` (lines 268-287):
apply every requested variable without a full-attribute match in the remote
set; when purging, refetch and delete every remote variable without a
full-attribute match among the requested ones. -/
def presentBranch (chk : Bool) (server : List Variable) (purge : Bool)
    (requested existing before : List Variable)
    (cmp : List Variable × List Variable × List Variable) :
    Option (Bool × NOut × List Variable × List Variable) :=
  let add_or_update := requested.filter (fun x => decide (x ∉ existing))
  match applyLoop chk server add_or_update with
  | none => none
  | some t =>
    if purge then
      let existing2 := filter_returned_variables (listRemote t.1)
      let remove := existing2.filter (fun x => decide (x ∉ requested))
      let s2 := remove.foldl (fun acc it => delete_variable chk acc it.key it.environment_scope) t.1
      some (assemble chk cmp (t.2.1.map Entry.full) (t.2.2.map Entry.full)
        (remove.map Entry.full) before (listRemote s2))
    else
      some (assemble chk cmp (t.2.1.map Entry.full) (t.2.2.map Entry.full)
        [] before (listRemote t.1))

/-- The `state == 'absent'` branch of `native_python_main` (lines 289-308):
strip `value` and `variable_type` from both sets; without purge delete the
requested variables found (as stripped dicts) in the stripped remote set, with
purge delete every remote variable. -/
def absentBranch (chk : Bool) (server : List Variable) (purge : Bool)
    (requested existing before : List Variable)
    (cmp : List Variable × List Variable × List Variable) :
    Option (Bool × NOut × List Variable × List Variable) :=
  let exS := existing.map stripVar
  let reqS := requested.map stripVar
  if purge then
    let s2 := exS.foldl (fun acc it => delete_variable chk acc it.key it.environment_scope) server
    some (assemble chk cmp [] [] (exS.map Entry.stripped) before (listRemote s2))
  else
    let remove_requested := reqS.filter (fun x => decide (x ∈ exS))
    let s2 := remove_requested.foldl (fun acc it => delete_variable chk acc it.key it.environment_scope) server
    some (assemble chk cmp [] [] (remove_requested.map Entry.stripped) before (listRemote s2))

/-- `native_python_main` (lines 242-319): snapshot the remote state, list and
filter the existing variables, normalise the requested ones, run `compare`
when in check mode, dispatch on the state, and finish with `assemble` and the
after snapshot. -/
def native_python_main (chk : Bool) (server : List Variable) (purge : Bool)
    (raws : List RawVariable) (state : St) :
    Option (Bool × NOut × List Variable × List Variable) :=
  let before := listRemote server
  let existing := filter_returned_variables (listRemote server)
  let requested := raws.map normalizeItem
  let cmp := if chk then compare requested existing state else ([], [], [])
  match state with
  | St.present => presentBranch chk server purge requested existing before cmp
  | St.absent => absentBranch chk server purge requested existing before cmp

/-- The tail of `main` (lines 368-389): fail the validation when state is
`present` and some requested variable has no value - before the remote state
is touched - and otherwise run `native_python_main` and project the four
result lists through `.get('key')`, with the untouched list of a real run
recomputed from the before/after snapshots and projected through
`.get('name')` (line 380). -/
def mainRun (chk : Bool) (server : List Variable) (purge : Bool)
    (varList : List RawVariable) (state : St) : Except String (Bool × Payload) :=
  if state = St.present ∧ varList.any (fun x => x.value.isNone) then
    Except.error msgValueRequired
  else
    match native_python_main chk server purge varList state with
    | none => Except.error strNone
    | some (changed, rv, before, after) =>
      let untouchedKeyName := if chk then sKey else sName
      let untouchedRaw : List (Option String) :=
        if chk then rv.untouched.map (fun x => entryGet x untouchedKeyName)
        else (before.filter (fun x => decide (x ∈ after))).map (fun x => varGet x untouchedKeyName)
      Except.ok (changed,
        { added := rv.added.map (fun x => entryGet x sKey)
          updated := rv.updated.map (fun x => entryGet x sKey)
          removed := rv.removed.map (fun x => entryGet x sKey)
          untouched := untouchedRaw })

/-- Candidates of the apply phase (line 269): the requested variables without
a full-attribute-equal counterpart in the existing set. -/
def candidatesOf (server requested : List Variable) : List Variable :=
  requested.filter (fun x => decide (x ∉ server))

/-- The server state after the real-mode apply phase. -/
def appliedServer (server requested : List Variable) : List Variable :=
  (applyTotal server (candidatesOf server requested)).1

/-- The purge list of the real-mode present branch (line 284): the refetched
remote variables without a full-attribute-equal counterpart among the
requested ones. -/
def purgeRemove (server requested : List Variable) : List Variable :=
  (appliedServer server requested).filter (fun x => decide (x ∉ requested))

/-- The server state after the real-mode purge deletions (lines 285-287). -/
def purgedServer (server requested : List Variable) : List Variable :=
  (purgeRemove server requested).foldl
    (fun acc it => delete_variable false acc it.key it.environment_scope)
    (appliedServer server requested)

/-- Distinctness of the (key, environment_scope) pairs of a list of
variables: the uniqueness invariant of the spec's data model (section 3). -/
def DistinctPairs (l : List Variable) : Prop :=
  l.Pairwise (fun a b => pairOf a ≠ pairOf b)

instance instDecDistinctPairs (l : List Variable) : Decidable (DistinctPairs l) := by
  unfold DistinctPairs
  infer_instance

/-- Sample key used in concrete runs. -/
def strFOO : String := "FOO"

/-- Second sample key used in concrete runs. -/
def strBAR : String := "BAR"

/-- Sample value 1. -/
def str1 : String := "1"

/-- Sample value 2. -/
def str2 : String := "2"

/-- Sample value x. -/
def strX : String := "x"

/-- A remote variable FOO with value 1 and default attributes. -/
def vFoo1 : Variable :=
  { key := strFOO, value := str1, masked := false, protected_ := false
    environment_scope := scopeStar, variable_type := typeEnvVar }

/-- The variable FOO with value 2 and default attributes. -/
def vFoo2 : Variable :=
  { key := strFOO, value := str2, masked := false, protected_ := false
    environment_scope := scopeStar, variable_type := typeEnvVar }

/-- A remote variable FOO with value 1 that is masked. -/
def vFooMasked : Variable :=
  { key := strFOO, value := str1, masked := true, protected_ := false
    environment_scope := scopeStar, variable_type := typeEnvVar }

/-- The variable BAR with value x and default attributes. -/
def vBar : Variable :=
  { key := strBAR, value := strX, masked := false, protected_ := false
    environment_scope := scopeStar, variable_type := typeEnvVar }

/-- A requested entry FOO with value 1 and everything else unset. -/
def rawFoo1 : RawVariable :=
  { name := strFOO, value := some str1, masked := none, protected_ := none
    environment_scope := none, variable_type := none }

/-- A requested entry FOO with value 2 and everything else unset. -/
def rawFoo2 : RawVariable :=
  { name := strFOO, value := some str2, masked := none, protected_ := none
    environment_scope := none, variable_type := none }

/-- A requested entry BAR with value x and everything else unset. -/
def rawBar : RawVariable :=
  { name := strBAR, value := some strX, masked := none, protected_ := none
    environment_scope := none, variable_type := none }

/-- A requested entry FOO without a value. -/
def rawNoVal : RawVariable :=
  { name := strFOO, value := none, masked := none, protected_ := none
    environment_scope := none, variable_type := none }

/-! Basic lemmas about the key/scope collision test. -/

theorem sameKeyScope_iff (a b : Variable) : sameKeyScope a b = true ↔ pairOf a = pairOf b := by
  simp [sameKeyScope, pairOf]

theorem sameKeyScope_false_iff (a b : Variable) :
    sameKeyScope a b = false ↔ pairOf a ≠ pairOf b := by
  rw [← Bool.not_eq_true]
  exact not_congr (sameKeyScope_iff a b)

theorem sameKeyScope_self (a : Variable) : sameKeyScope a a = true := by
  simp [sameKeyScope]

theorem distinct_mem_eq {l : List Variable} (h : DistinctPairs l) {a b : Variable}
    (ha : a ∈ l) (hb : b ∈ l) (hp : pairOf a = pairOf b) : a = b := by
  by_contra hne
  have hsymm : Symmetric (fun a b : Variable => pairOf a ≠ pairOf b) :=
    fun x y hxy e => hxy e.symm
  exact List.Pairwise.forall hsymm h ha hb hne hp

theorem distinct_sublist {l m : List Variable} (hsub : List.Sublist l m) (h : DistinctPairs m) :
    DistinctPairs l :=
  List.Pairwise.sublist hsub h

/-! Lemmas about the paginated listing. -/

theorem listLoop_paginate (s : List Variable) :
    ∀ fuel page, 1 ≤ page → s.length ≤ (page - 1) * 20 + fuel * 20 →
      listLoop (paginate s) fuel page = s.drop ((page - 1) * 20) := by
  intro fuel
  induction fuel with
  | zero =>
    intro page h1 h2
    simp only [Nat.zero_mul, Nat.add_zero] at h2
    exact (List.drop_eq_nil_of_le h2).symm
  | succ fuel ih =>
    intro page h1 h2
    by_cases hd : s.drop ((page - 1) * 20) = []
    · simp [listLoop, paginate, hd]
    · have htake : ¬ paginate s page = [] := by
        intro hcon
        apply hd
        have hlen := congrArg List.length hcon
        simp only [paginate, List.length_take, List.length_nil] at hlen
        have : (s.drop ((page - 1) * 20)).length = 0 := by omega
        exact List.eq_nil_of_length_eq_zero this
      simp only [listLoop]
      rw [if_neg htake]
      have ih2 := ih (page + 1) (by omega) (by omega)
      have hpp : (page + 1 - 1) * 20 = (page - 1) * 20 + 20 := by omega
      rw [hpp] at ih2
      rw [ih2, ← List.drop_drop]
      exact List.take_append_drop _ _

theorem listRemote_eq (s : List Variable) : listRemote s = s := by
  have h := listLoop_paginate s (s.length + 1) 1 (by omega) (by omega)
  simpa [listRemote, list_all_instance_variables] using h

/-! Lemmas about the apply loop of the present branch. -/

theorem delete_variable_eq (s : List Variable) (v : Variable) :
    delete_variable false s v.key v.environment_scope
      = s.filter (fun w => !sameKeyScope w v) := rfl

theorem no_clash_after_delete (s : List Variable) (v : Variable) :
    (s.filter (fun w => !sameKeyScope w v)).any (fun w => sameKeyScope w v) = false := by
  rw [List.any_eq_false]
  intro w hw
  have h2 := (List.mem_filter.mp hw).2
  simpa using h2

theorem update_variable_false (s : List Variable) (v : Variable) :
    update_variable false s v = some (s.filter (fun w => !sameKeyScope w v) ++ [v]) := by
  have h := no_clash_after_delete s v
  simp [update_variable, create_variable, delete_variable_eq, h]

theorem applyLoop_true (s items : List Variable) :
    applyLoop true s items = some (s, items, []) := by
  induction items generalizing s with
  | nil => rfl
  | cons v rest ih => simp [applyLoop, create_variable, ih]

theorem applyLoop_false (s items : List Variable) :
    applyLoop false s items = some (applyTotal s items) := by
  induction items generalizing s with
  | nil => rfl
  | cons v rest ih =>
    by_cases hc : s.any (fun w => sameKeyScope w v) = true
    · simp [applyLoop, applyTotal, create_variable, hc, update_variable_false, ih]
    · rw [Bool.not_eq_true] at hc
      simp [applyLoop, applyTotal, create_variable, hc, ih]

theorem applyLoop_isSome (chk : Bool) (s items : List Variable) :
    ∃ t, applyLoop chk s items = some t := by
  cases chk
  · exact ⟨_, applyLoop_false s items⟩
  · exact ⟨_, applyLoop_true s items⟩

theorem filter_and (p q : Variable → Bool) (l : List Variable) :
    (l.filter p).filter q = l.filter (fun a => p a && q a) := by
  rw [List.filter_filter]
  exact List.filter_congr (fun a _ => Bool.and_comm (q a) (p a))

theorem filter_of_no_clash (s : List Variable) (v : Variable)
    (hc : s.any (fun w => sameKeyScope w v) = false) :
    s.filter (fun w => !sameKeyScope w v) = s := by
  rw [List.any_eq_false] at hc
  rw [List.filter_eq_self]
  intro a ha
  simpa using hc a ha

theorem any_append_single (s : List Variable) (v u : Variable)
    (hvu : sameKeyScope v u = false) :
    (s ++ [v]).any (fun w => sameKeyScope w u) = s.any (fun w => sameKeyScope w u) := by
  simp [List.any_append, hvu]

theorem any_filter_del (s : List Variable) (v u : Variable)
    (hvu : sameKeyScope v u = false) :
    (s.filter (fun w => !sameKeyScope w v)).any (fun w => sameKeyScope w u)
      = s.any (fun w => sameKeyScope w u) := by
  cases hcase : s.any (fun w => sameKeyScope w u) with
  | false =>
    rw [List.any_eq_false] at hcase
    rw [List.any_eq_false]
    intro w hw
    exact hcase w (List.mem_filter.mp hw).1
  | true =>
    rw [List.any_eq_true] at hcase
    obtain ⟨w, hws, hw⟩ := hcase
    refine List.any_eq_true.mpr ⟨w, List.mem_filter.mpr ⟨hws, ?_⟩, hw⟩
    have h1 := (sameKeyScope_iff w u).mp hw
    cases hwv : sameKeyScope w v with
    | false => simp
    | true =>
      exfalso
      have h2 := (sameKeyScope_iff w v).mp hwv
      exact (sameKeyScope_false_iff v u).mp hvu (h2.symm.trans h1)

theorem step_any_eq (s : List Variable) (v u : Variable)
    (hvu : sameKeyScope v u = false) :
    ((s.filter (fun w => !sameKeyScope w v) ++ [v]).any (fun w => sameKeyScope w u))
      = s.any (fun w => sameKeyScope w u) := by
  rw [any_append_single _ _ _ hvu, any_filter_del _ _ _ hvu]

theorem applyTotal_fst (s items : List Variable)
    (h : DistinctPairs items) :
    (applyTotal s items).1
      = s.filter (fun w => !items.any (fun u => sameKeyScope w u)) ++ items := by
  induction items generalizing s with
  | nil => simp [applyTotal]
  | cons v rest ih =>
    obtain ⟨hv, hrest⟩ := List.pairwise_cons.mp h
    have hvu : ∀ u ∈ rest, sameKeyScope v u = false :=
      fun u hu => (sameKeyScope_false_iff v u).mpr (hv u hu)
    have key : ∀ s0 : List Variable,
        (s0.filter (fun w => !sameKeyScope w v) ++ [v]).filter
            (fun w => !rest.any (fun u => sameKeyScope w u)) ++ rest
          = s0.filter (fun w => !(v :: rest).any (fun u => sameKeyScope w u)) ++ (v :: rest) := by
      intro s0
      rw [List.filter_append, filter_and]
      have hone : [v].filter (fun w => !rest.any (fun u => sameKeyScope w u)) = [v] := by
        have : rest.any (fun u => sameKeyScope v u) = false := by
          rw [List.any_eq_false]
          intro u hu
          simp [hvu u hu]
        simp [List.filter, this]
      rw [hone]
      have hpred : s0.filter (fun w => !sameKeyScope w v && !rest.any (fun u => sameKeyScope w u))
          = s0.filter (fun w => !(v :: rest).any (fun u => sameKeyScope w u)) := by
        refine List.filter_congr (fun w _ => ?_)
        simp [List.any_cons, Bool.not_or]
      rw [hpred, List.append_assoc]
      rfl
    by_cases hc : s.any (fun w => sameKeyScope w v) = true
    · show (applyTotal s (v :: rest)).1 = _
      simp only [applyTotal, hc, if_true]
      rw [ih _ hrest]
      exact key s
    · rw [Bool.not_eq_true] at hc
      simp only [applyTotal, hc, Bool.false_eq_true, if_false]
      rw [ih _ hrest]
      have hall := List.any_eq_false.mp hc
      have hone : [v].filter (fun w => !rest.any (fun u => sameKeyScope w u)) = [v] := by
        have : rest.any (fun u => sameKeyScope v u) = false := by
          rw [List.any_eq_false]
          intro u hu
          simp [hvu u hu]
        simp [List.filter, this]
      rw [List.filter_append, hone]
      have hpred2 : s.filter (fun w => !rest.any (fun u => sameKeyScope w u))
          = s.filter (fun w => !(v :: rest).any (fun u => sameKeyScope w u)) := by
        refine List.filter_congr (fun w hw => ?_)
        have hwv : sameKeyScope w v = false := by simpa using hall w hw
        simp [List.any_cons, Bool.not_or, hwv]
      rw [hpred2, List.append_assoc]
      rfl

theorem applyTotal_classify (s items : List Variable)
    (h : DistinctPairs items) :
    (applyTotal s items).2.1 = items.filter (fun v => !s.any (fun w => sameKeyScope w v)) ∧
    (applyTotal s items).2.2 = items.filter (fun v => s.any (fun w => sameKeyScope w v)) := by
  induction items generalizing s with
  | nil => simp [applyTotal]
  | cons v rest ih =>
    obtain ⟨hv, hrest⟩ := List.pairwise_cons.mp h
    have hvu : ∀ u ∈ rest, sameKeyScope v u = false :=
      fun u hu => (sameKeyScope_false_iff v u).mpr (hv u hu)
    by_cases hc : s.any (fun w => sameKeyScope w v) = true
    · have ih2 := ih (s.filter (fun w => !sameKeyScope w v) ++ [v]) hrest
      have hstepA : rest.filter
            (fun u => !(s.filter (fun w => !sameKeyScope w v) ++ [v]).any (fun w => sameKeyScope w u))
          = rest.filter (fun u => !s.any (fun w => sameKeyScope w u)) := by
        refine List.filter_congr (fun u hu => ?_)
        rw [step_any_eq s v u (hvu u hu)]
      have hstepB : rest.filter
            (fun u => (s.filter (fun w => !sameKeyScope w v) ++ [v]).any (fun w => sameKeyScope w u))
          = rest.filter (fun u => s.any (fun w => sameKeyScope w u)) := by
        refine List.filter_congr (fun u hu => ?_)
        rw [step_any_eq s v u (hvu u hu)]
      simp only [applyTotal, hc, if_true]
      constructor
      · rw [ih2.1, hstepA, List.filter_cons]
        simp [hc]
      · rw [ih2.2, hstepB, List.filter_cons]
        simp [hc]
    · rw [Bool.not_eq_true] at hc
      have ih2 := ih (s ++ [v]) hrest
      have hstepA : rest.filter (fun u => !(s ++ [v]).any (fun w => sameKeyScope w u))
          = rest.filter (fun u => !s.any (fun w => sameKeyScope w u)) := by
        refine List.filter_congr (fun u hu => ?_)
        rw [any_append_single s v u (hvu u hu)]
      have hstepB : rest.filter (fun u => (s ++ [v]).any (fun w => sameKeyScope w u))
          = rest.filter (fun u => s.any (fun w => sameKeyScope w u)) := by
        refine List.filter_congr (fun u hu => ?_)
        rw [any_append_single s v u (hvu u hu)]
      simp only [applyTotal, hc, Bool.false_eq_true, if_false]
      constructor
      · rw [ih2.1, hstepA, List.filter_cons]
        simp [hc]
      · rw [ih2.2, hstepB, List.filter_cons]
        simp [hc]

theorem applyTotal_pairwise (s items : List Variable)
    (hs : DistinctPairs s) (hi : DistinctPairs items) :
    DistinctPairs (applyTotal s items).1 := by
  rw [applyTotal_fst s items hi]
  rw [DistinctPairs, List.pairwise_append]
  refine ⟨distinct_sublist (List.filter_sublist s) hs, hi, ?_⟩
  intro a ha b hb
  have h2 := (List.mem_filter.mp ha).2
  rw [Bool.not_eq_eq_eq_not, Bool.not_true, List.any_eq_false] at h2
  exact (sameKeyScope_false_iff a b).mp (Bool.eq_false_iff.mpr (h2 b hb))

theorem foldl_delete_true (init rem : List Variable) :
    rem.foldl (fun acc it => delete_variable true acc it.key it.environment_scope) init = init := by
  induction rem generalizing init with
  | nil => rfl
  | cons it rest ih => simp [List.foldl_cons, delete_variable, ih]

theorem foldl_delete_false (init rem : List Variable) :
    rem.foldl (fun acc it => delete_variable false acc it.key it.environment_scope) init
      = init.filter (fun w => !rem.any (fun it => sameKeyScope w it)) := by
  induction rem generalizing init with
  | nil => simp
  | cons it rest ih =>
    rw [List.foldl_cons, ih, delete_variable_eq, filter_and]
    refine List.filter_congr (fun w _ => ?_)
    simp [List.any_cons, Bool.not_or]

/-! Unfolding lemmas for `native_python_main`. -/

theorem compare_absent (requested existing : List Variable) :
    compare requested existing St.absent = ([], [], []) := rfl

theorem native_present_false_eq (server : List Variable) (purge : Bool) (raws : List RawVariable) :
    native_python_main false server purge raws St.present =
      (if purge then
        some (assemble false ([], [], [])
          ((applyTotal server (candidatesOf server (raws.map normalizeItem))).2.1.map Entry.full)
          ((applyTotal server (candidatesOf server (raws.map normalizeItem))).2.2.map Entry.full)
          ((purgeRemove server (raws.map normalizeItem)).map Entry.full)
          server (purgedServer server (raws.map normalizeItem)))
      else
        some (assemble false ([], [], [])
          ((applyTotal server (candidatesOf server (raws.map normalizeItem))).2.1.map Entry.full)
          ((applyTotal server (candidatesOf server (raws.map normalizeItem))).2.2.map Entry.full)
          [] server (appliedServer server (raws.map normalizeItem)))) := by
  simp only [native_python_main, presentBranch, filter_returned_variables, listRemote_eq,
    applyLoop_false, candidatesOf, appliedServer, purgeRemove, purgedServer]
  cases purge <;> simp [listRemote_eq]

theorem native_present_true_eq (server : List Variable) (purge : Bool) (raws : List RawVariable) :
    native_python_main true server purge raws St.present =
      (if purge then
        some (assemble true (compare (raws.map normalizeItem) server St.present)
          ((candidatesOf server (raws.map normalizeItem)).map Entry.full) []
          ((server.filter (fun x => decide (x ∉ raws.map normalizeItem))).map Entry.full) server
          ((server.filter (fun x => decide (x ∉ raws.map normalizeItem))).foldl
            (fun acc it => delete_variable true acc it.key it.environment_scope) server))
      else
        some (assemble true (compare (raws.map normalizeItem) server St.present)
          ((candidatesOf server (raws.map normalizeItem)).map Entry.full) [] [] server server)) := by
  simp only [native_python_main, presentBranch, filter_returned_variables, listRemote_eq,
    applyLoop_true, candidatesOf, List.map_nil]
  cases purge <;> simp [listRemote_eq]

theorem native_absent_eq (chk : Bool) (server : List Variable) (purge : Bool)
    (raws : List RawVariable) :
    native_python_main chk server purge raws St.absent =
      (if purge then
        some (assemble chk (if chk then compare (raws.map normalizeItem) server St.absent else ([], [], []))
          [] [] (((server.map stripVar)).map Entry.stripped) server
          ((server.map stripVar).foldl
            (fun acc it => delete_variable chk acc it.key it.environment_scope) server))
      else
        some (assemble chk (if chk then compare (raws.map normalizeItem) server St.absent else ([], [], []))
          [] []
          ((((raws.map normalizeItem).map stripVar).filter
              (fun x => decide (x ∈ server.map stripVar))).map Entry.stripped) server
          ((((raws.map normalizeItem).map stripVar).filter
              (fun x => decide (x ∈ server.map stripVar))).foldl
            (fun acc it => delete_variable chk acc it.key it.environment_scope) server))) := by
  simp only [native_python_main, absentBranch, filter_returned_variables, listRemote_eq]

theorem native_shape (chk : Bool) (server : List Variable) (purge : Bool)
    (raws : List RawVariable) (state : St) :
    ∃ cmp aE uE rE b2 a2,
      native_python_main chk server purge raws state = some (assemble chk cmp aE uE rE b2 a2) := by
  cases state with
  | absent =>
    rw [native_absent_eq]
    cases purge
    · exact ⟨_, _, _, _, _, _, rfl⟩
    · exact ⟨_, _, _, _, _, _, rfl⟩
  | present =>
    cases chk with
    | false =>
      rw [native_present_false_eq]
      cases purge
      · exact ⟨_, _, _, _, _, _, rfl⟩
      · exact ⟨_, _, _, _, _, _, rfl⟩
    | true =>
      rw [native_present_true_eq]
      cases purge
      · exact ⟨_, _, _, _, _, _, rfl⟩
      · exact ⟨_, _, _, _, _, _, rfl⟩

theorem assemble_changed (chk : Bool) (cmp : List Variable × List Variable × List Variable)
    (aE uE rE : List Entry) (b2 a2 : List Variable) :
    ((assemble chk cmp aE uE rE b2 a2).1 = true ↔
      (assemble chk cmp aE uE rE b2 a2).2.1.added ++ (assemble chk cmp aE uE rE b2 a2).2.1.updated
        ++ (assemble chk cmp aE uE rE b2 a2).2.1.removed ≠ []) := by
  have hl : ∀ x y z : List Entry, (x ++ y ++ z ≠ []) ↔ 0 < (x ++ z ++ y).length := by
    intro x y z
    rw [← List.length_pos]
    simp only [List.length_append]
    omega
  cases chk
  · show (decide (0 < (aE ++ rE ++ uE).length) = true) ↔ (aE ++ uE ++ rE ≠ [])
    rw [decide_eq_true_eq, hl]
  · show (decide (0 < (cmp.2.2.map Entry.full ++ rE ++ cmp.2.1.map Entry.full).length) = true)
        ↔ (cmp.2.2.map Entry.full ++ cmp.2.1.map Entry.full ++ rE ≠ [])
    rw [decide_eq_true_eq, hl]

/-! Membership lemmas for the present-branch pipeline. -/

theorem mem_candidatesOf {server requested : List Variable} {x : Variable} :
    x ∈ candidatesOf server requested ↔ x ∈ requested ∧ x ∉ server := by
  simp [candidatesOf]

theorem cand_distinct (server requested : List Variable) (hreq : DistinctPairs requested) :
    DistinctPairs (candidatesOf server requested) :=
  distinct_sublist (List.filter_sublist _) hreq

theorem requested_mem_applied (server requested : List Variable)
    (hreq : DistinctPairs requested) :
    ∀ r ∈ requested, r ∈ appliedServer server requested := by
  intro r hr
  rw [appliedServer, applyTotal_fst _ _ (cand_distinct server requested hreq)]
  by_cases hx : r ∈ candidatesOf server requested
  · exact List.mem_append_right _ hx
  · have hrs : r ∈ server := by
      by_contra hns
      exact hx (mem_candidatesOf.mpr ⟨hr, hns⟩)
    refine List.mem_append_left _ (List.mem_filter.mpr ⟨hrs, ?_⟩)
    rw [Bool.not_eq_eq_eq_not, Bool.not_true, List.any_eq_false]
    intro u hu hclash
    have hpair := (sameKeyScope_iff r u).mp hclash
    have huR : u ∈ requested := (mem_candidatesOf.mp hu).1
    have heq := distinct_mem_eq hreq hr huR hpair
    rw [heq] at hx
    exact hx hu

theorem mem_purgeRemove_iff (server requested : List Variable)
    (hreq : DistinctPairs requested) (hsrv : DistinctPairs server) (w : Variable) :
    w ∈ purgeRemove server requested ↔
      (w ∈ server ∧ ∀ r ∈ requested, pairOf r ≠ pairOf w) := by
  constructor
  · intro hw
    rw [purgeRemove, List.mem_filter] at hw
    obtain ⟨hwT, hwD⟩ := hw
    have hwnr : w ∉ requested := by simpa using hwD
    rw [appliedServer, applyTotal_fst _ _ (cand_distinct server requested hreq)] at hwT
    rcases List.mem_append.mp hwT with hwf | hwc
    · obtain ⟨hwS, hwP⟩ := List.mem_filter.mp hwf
      rw [Bool.not_eq_eq_eq_not, Bool.not_true, List.any_eq_false] at hwP
      refine ⟨hwS, ?_⟩
      intro r hr hpair
      by_cases hrc : r ∈ candidatesOf server requested
      · exact hwP r hrc ((sameKeyScope_iff w r).mpr hpair.symm)
      · have hrS : r ∈ server := by
          by_contra hns
          exact hrc (mem_candidatesOf.mpr ⟨hr, hns⟩)
        have heq := distinct_mem_eq hsrv hwS hrS hpair.symm
        rw [← heq] at hr
        exact hwnr hr
    · exact absurd (mem_candidatesOf.mp hwc).1 hwnr
  · intro hw
    obtain ⟨hwS, hwP⟩ := hw
    have hwnr : w ∉ requested := fun hin => hwP w hin rfl
    rw [purgeRemove, List.mem_filter]
    refine ⟨?_, by simpa using hwnr⟩
    rw [appliedServer, applyTotal_fst _ _ (cand_distinct server requested hreq)]
    refine List.mem_append_left _ (List.mem_filter.mpr ⟨hwS, ?_⟩)
    rw [Bool.not_eq_eq_eq_not, Bool.not_true, List.any_eq_false]
    intro u hu hclash
    exact hwP u (mem_candidatesOf.mp hu).1 ((sameKeyScope_iff w u).mp hclash).symm

theorem mem_purgedServer_iff (server requested : List Variable)
    (hreq : DistinctPairs requested) (hsrv : DistinctPairs server) (w : Variable) :
    w ∈ purgedServer server requested ↔ w ∈ requested := by
  rw [purgedServer, foldl_delete_false, List.mem_filter]
  constructor
  · intro hw
    obtain ⟨hwT, hwP⟩ := hw
    by_contra hwnr
    have hwrem : w ∈ purgeRemove server requested := by
      rw [purgeRemove, List.mem_filter]
      exact ⟨hwT, by simpa using hwnr⟩
    rw [Bool.not_eq_eq_eq_not, Bool.not_true, List.any_eq_false] at hwP
    exact hwP w hwrem (sameKeyScope_self w)
  · intro hr
    refine ⟨requested_mem_applied server requested hreq w hr, ?_⟩
    rw [Bool.not_eq_eq_eq_not, Bool.not_true, List.any_eq_false]
    intro it hit hclash
    have hitP := (mem_purgeRemove_iff server requested hreq hsrv it).mp hit
    exact hitP.2 w hr ((sameKeyScope_iff w it).mp hclash)

theorem tuple4_eq {α β γ δ : Type} {x : α × β × γ × δ} {a : α} {b : β} {c : γ} {d : δ}
    (h : x = (a, b, c, d)) : x.1 = a ∧ x.2.1 = b ∧ x.2.2.1 = c ∧ x.2.2.2 = d := by
  subst h
  exact ⟨rfl, rfl, rfl, rfl⟩

theorem mem_map_full {l : List Variable} {w : Variable} :
    Entry.full w ∈ l.map Entry.full ↔ w ∈ l := by
  constructor
  · intro h
    rcases List.mem_map.mp h with ⟨x, hx, hxe⟩
    exact (Entry.full.inj hxe) ▸ hx
  · exact fun h => List.mem_map_of_mem Entry.full h

/-- C1: with state `present` in a real run, the set of variables submitted for
application is exactly the desired variables without a full-attribute-equal
counterpart in the remote set (`candidatesOf`); for each such variable a
create is attempted first, a creation failure (which the modelled API raises
exactly on a key/scope collision with the current remote state) triggers the
fallback update implemented as delete-then-create, and the variable is
classified added when the create succeeds and updated when the fallback path
runs - so, for pair-distinct requests, added collects the candidates without
a remote key/scope collision and updated those with one. -/
theorem c1_present_apply_classification
    (server : List Variable) (purge : Bool) (raws : List RawVariable)
    (chg : Bool) (out : NOut) (before after : List Variable)
    (hreq : DistinctPairs (raws.map normalizeItem))
    (h : native_python_main false server purge raws St.present = some (chg, out, before, after)) :
    out.added = ((candidatesOf server (raws.map normalizeItem)).filter
        (fun v => !server.any (fun w => sameKeyScope w v))).map Entry.full ∧
    out.updated = ((candidatesOf server (raws.map normalizeItem)).filter
        (fun v => server.any (fun w => sameKeyScope w v))).map Entry.full := by
  rw [native_present_false_eq] at h
  have hcls := applyTotal_classify server (candidatesOf server (raws.map normalizeItem))
    (cand_distinct server (raws.map normalizeItem) hreq)
  cases purge
  case false =>
    rw [if_neg Bool.false_ne_true] at h
    obtain ⟨hchg, hrv, hbef, haft⟩ := tuple4_eq (Option.some.inj h)
    rw [← hrv]
    exact ⟨congrArg (List.map Entry.full) hcls.1, congrArg (List.map Entry.full) hcls.2⟩
  case true =>
    rw [if_pos rfl] at h
    obtain ⟨hchg, hrv, hbef, haft⟩ := tuple4_eq (Option.some.inj h)
    rw [← hrv]
    exact ⟨congrArg (List.map Entry.full) hcls.1, congrArg (List.map Entry.full) hcls.2⟩

/-- C1 witness: remote holds FOO=1, the request is FOO=2 with the same
key/scope, in a real non-purging run; the collision routes FOO through the
delete-then-create fallback, so it is classified updated and not added. -/
theorem c1_present_apply_classification_witness :
    NOut.added { added := [], updated := [Entry.full vFoo2], removed := [], untouched := [] }
      = ((candidatesOf [vFoo1] ([rawFoo2].map normalizeItem)).filter
          (fun v => !([vFoo1].any (fun w => sameKeyScope w v)))).map Entry.full ∧
    NOut.updated { added := [], updated := [Entry.full vFoo2], removed := [], untouched := [] }
      = ((candidatesOf [vFoo1] ([rawFoo2].map normalizeItem)).filter
          (fun v => [vFoo1].any (fun w => sameKeyScope w v))).map Entry.full :=
  c1_present_apply_classification [vFoo1] false [rawFoo2] true
    { added := [], updated := [Entry.full vFoo2], removed := [], untouched := [] }
    [vFoo1] [vFoo2] (by decide) (by decide)

/-- C3: with state `present` and purge on, in a real run the removed list
collects exactly the remote variables whose (key, environment_scope) pair is
not desired, and afterwards the remote state holds exactly the desired
variables, so its (key, scope) pairs equal the desired pairs - under the
data-model invariant that requested and remote pairs are distinct. -/
theorem c3_present_purge_reconciles
    (server : List Variable) (raws : List RawVariable)
    (chg : Bool) (out : NOut) (before after : List Variable)
    (hreq : DistinctPairs (raws.map normalizeItem))
    (hsrv : DistinctPairs server)
    (h : native_python_main false server true raws St.present = some (chg, out, before, after)) :
    (∀ w : Variable, Entry.full w ∈ out.removed ↔
        (w ∈ before ∧ ∀ r ∈ raws.map normalizeItem, pairOf r ≠ pairOf w)) ∧
    (∀ w : Variable, w ∈ after ↔ w ∈ raws.map normalizeItem) ∧
    (∀ p : String × String, p ∈ after.map pairOf ↔ p ∈ (raws.map normalizeItem).map pairOf) := by
  rw [native_present_false_eq, if_pos rfl] at h
  obtain ⟨hchg, hrv, hbef, haft⟩ := tuple4_eq (Option.some.inj h)
  have hAfter : ∀ w : Variable, w ∈ after ↔ w ∈ raws.map normalizeItem := by
    intro w
    rw [← haft]
    exact mem_purgedServer_iff server (raws.map normalizeItem) hreq hsrv w
  refine ⟨?_, hAfter, ?_⟩
  · intro w
    rw [← hrv, ← hbef]
    exact Iff.trans mem_map_full (mem_purgeRemove_iff server (raws.map normalizeItem) hreq hsrv w)
  · intro p
    constructor
    · intro hp
      rcases List.mem_map.mp hp with ⟨w, hw, hpe⟩
      exact hpe ▸ List.mem_map_of_mem pairOf ((hAfter w).mp hw)
    · intro hp
      rcases List.mem_map.mp hp with ⟨w, hw, hpe⟩
      exact hpe ▸ List.mem_map_of_mem pairOf ((hAfter w).mpr hw)

/-- C3 witness: remote holds FOO, the desired list is BAR, purge on; FOO (the
only undesired pair) is removed and the final remote state is exactly BAR. -/
theorem c3_present_purge_reconciles_witness :
    (∀ w : Variable,
      Entry.full w ∈
          NOut.removed
            { added := [Entry.full vBar], updated := [], removed := [Entry.full vFoo1], untouched := [] } ↔
      (w ∈ [vFoo1] ∧ ∀ r ∈ [rawBar].map normalizeItem, pairOf r ≠ pairOf w)) ∧
    (∀ w : Variable, w ∈ [vBar] ↔ w ∈ [rawBar].map normalizeItem) ∧
    (∀ p : String × String, p ∈ [vBar].map pairOf ↔ p ∈ ([rawBar].map normalizeItem).map pairOf) :=
  c3_present_purge_reconciles [vFoo1] [rawBar] true
    { added := [Entry.full vBar], updated := [], removed := [Entry.full vFoo1], untouched := [] }
    [vFoo1] [vBar] (by decide) (by decide) (by decide)

/-- C5: running the state-present reconciliation a second time on the remote
state left by a successful first run reproduces that state and reports
changed false with empty added, updated and removed lists - under the
data-model invariant of pair-distinct requested and remote variables. -/
theorem c5_second_run_idempotent
    (server : List Variable) (purge : Bool) (raws : List RawVariable)
    (chg : Bool) (out : NOut) (before after : List Variable)
    (hreq : DistinctPairs (raws.map normalizeItem))
    (hsrv : DistinctPairs server)
    (h : native_python_main false server purge raws St.present = some (chg, out, before, after)) :
    native_python_main false after purge raws St.present
      = some (false, { added := [], updated := [], removed := [], untouched := [] },
          after, after) := by
  rw [native_present_false_eq] at h
  cases purge
  case false =>
    rw [if_neg Bool.false_ne_true] at h
    obtain ⟨hchg, hrv, hbef, haft⟩ := tuple4_eq (Option.some.inj h)
    have hA : appliedServer server (raws.map normalizeItem) = after := haft
    have hmem : ∀ r ∈ raws.map normalizeItem, r ∈ after := by
      intro r hr
      rw [← hA]
      exact requested_mem_applied server (raws.map normalizeItem) hreq r hr
    have hcand : candidatesOf after (raws.map normalizeItem) = [] := by
      rw [candidatesOf, List.filter_eq_nil_iff]
      intro r hr hcon
      rw [decide_eq_true_eq] at hcon
      exact hcon (hmem r hr)
    rw [native_present_false_eq, if_neg Bool.false_ne_true]
    simp only [appliedServer, hcand]
    rfl
  case true =>
    rw [if_pos rfl] at h
    obtain ⟨hchg, hrv, hbef, haft⟩ := tuple4_eq (Option.some.inj h)
    have hA : purgedServer server (raws.map normalizeItem) = after := haft
    have hmem : ∀ w : Variable, w ∈ after ↔ w ∈ raws.map normalizeItem := by
      intro w
      rw [← hA]
      exact mem_purgedServer_iff server (raws.map normalizeItem) hreq hsrv w
    have hcand : candidatesOf after (raws.map normalizeItem) = [] := by
      rw [candidatesOf, List.filter_eq_nil_iff]
      intro r hr hcon
      rw [decide_eq_true_eq] at hcon
      exact hcon ((hmem r).mpr hr)
    have happ : appliedServer after (raws.map normalizeItem) = after := by
      simp only [appliedServer, hcand]
      rfl
    have hrem : purgeRemove after (raws.map normalizeItem) = [] := by
      simp only [purgeRemove, happ]
      rw [List.filter_eq_nil_iff]
      intro w hw hcon
      rw [decide_eq_true_eq] at hcon
      exact hcon ((hmem w).mp hw)
    have hpurged : purgedServer after (raws.map normalizeItem) = after := by
      simp only [purgedServer, hrem, happ]
      rfl
    rw [native_present_false_eq, if_pos rfl, hcand, hrem, hpurged]
    rfl

/-- C5 witness: an empty remote reconciled against FOO=1 leaves remote FOO=1;
the immediate re-run reproduces that state with changed false and empty
added, updated and removed lists. -/
theorem c5_second_run_idempotent_witness :
    native_python_main false [vFoo1] false [rawFoo1] St.present
      = some (false, { added := [], updated := [], removed := [], untouched := [] },
          [vFoo1], [vFoo1]) :=
  c5_second_run_idempotent [] false [rawFoo1] true
    { added := [Entry.full vFoo1], updated := [], removed := [], untouched := [] }
    [] [vFoo1] (by decide) (by decide) (by decide)

/-- C2: evaluation of the check-mode run at the failing input.  The remote
holds FOO=1, the desired list is FOO=2 (same key and scope, different value),
state is present and purge is on.  The claim says such a variable is
classified updated and that removed only holds variables whose pair is
undesired; the code instead classifies FOO as added - `compare` builds its
key/scope probe from the `name` field that the normalisation loop already
renamed to `key`, so the updated branch never fires - and reports FOO=1 as
removed although its pair is desired.  No mutating call happens: the before
and after snapshots coincide. -/
theorem c2_checkmode_misclassification :
    native_python_main true [vFoo1] true [rawFoo2] St.present
      = some (true,
          { added := [Entry.full vFoo2], updated := [], removed := [Entry.full vFoo1],
            untouched := [] },
          [vFoo1], [vFoo1]) := by
  decide

/-- C4: evaluation of the absent-state run at the failing input.  The remote
holds FOO with masked true; the desired list is FOO with default masked
false; purge is off.  By key and environment scope the variable is present in
both sets, so the claim says it is deleted; the code compares the stripped
dicts including masked and protected and therefore deletes nothing. -/
theorem c4_absent_masked_mismatch_not_deleted :
    native_python_main false [vFooMasked] false [rawFoo1] St.absent
      = some (false, { added := [], updated := [], removed := [], untouched := [] },
          [vFooMasked], [vFooMasked]) := by
  decide

/-- C6: for every invocation - both states, check mode or not - the returned
changed flag is true exactly when the concatenation of the added, updated and
removed lists of the outcome is non-empty. -/
theorem c6_changed_iff_nonempty (chk : Bool) (server : List Variable) (purge : Bool)
    (raws : List RawVariable) (state : St) (chg : Bool) (out : NOut)
    (before after : List Variable)
    (h : native_python_main chk server purge raws state = some (chg, out, before, after)) :
    chg = true ↔ out.added ++ out.updated ++ out.removed ≠ [] := by
  obtain ⟨cmp, aE, uE, rE, b2, a2, hsh⟩ := native_shape chk server purge raws state
  rw [hsh] at h
  obtain ⟨hchg, hrv, hbef, haft⟩ := tuple4_eq (Option.some.inj h)
  rw [← hchg, ← hrv]
  exact assemble_changed chk cmp aE uE rE b2 a2

/-- C6 witness: creating FOO on an empty remote reports changed true and a
non-empty added list. -/
theorem c6_changed_iff_nonempty_witness :
    true = true ↔
      NOut.added { added := [Entry.full vFoo1], updated := [], removed := [], untouched := [] }
        ++ NOut.updated { added := [Entry.full vFoo1], updated := [], removed := [], untouched := [] }
        ++ NOut.removed { added := [Entry.full vFoo1], updated := [], removed := [], untouched := [] }
        ≠ [] :=
  c6_changed_iff_nonempty false [] false [rawFoo1] St.present true
    { added := [Entry.full vFoo1], updated := [], removed := [], untouched := [] }
    [] [vFoo1] (by decide)

/-- C7: evaluation of `main` at the failing input of the untouched
projection.  In a real run with remote FOO=1 and the identical desired
variable, the untouched payload should list the key name FOO; the code
instead reads the `name` field from the attribute dicts of the before/after
snapshots - which only carry `key` - and returns one null per untouched
variable. -/
theorem c7_untouched_payload_is_none :
    mainRun false [vFoo1] false [rawFoo1] St.present
      = Except.ok (false, { added := [], updated := [], removed := [], untouched := [none] }) := by
  rfl

/-- C8: with state present, when some requested variable has no value the run
fails with the validation error, and the result does not depend on the remote
state at all - the validation happens before any API interaction (all API
interaction of the embedding lives in `native_python_main`, which the error
branch never reaches). -/
theorem c8_value_validation_first (chk : Bool) (server server2 : List Variable) (purge : Bool)
    (varList : List RawVariable)
    (h : varList.any (fun x => x.value.isNone) = true) :
    mainRun chk server purge varList St.present = Except.error msgValueRequired ∧
      mainRun chk server purge varList St.present
        = mainRun chk server2 purge varList St.present := by
  have h1 : ∀ srv : List Variable,
      mainRun chk srv purge varList St.present = Except.error msgValueRequired := by
    intro srv
    simp [mainRun, h]
  exact ⟨h1 server, (h1 server).trans (h1 server2).symm⟩

/-- C8 witness: a request without a value fails the validation identically on
an empty remote and on a non-empty remote. -/
theorem c8_value_validation_first_witness :
    mainRun false [] false [rawNoVal] St.present = Except.error msgValueRequired ∧
      mainRun false [] false [rawNoVal] St.present
        = mainRun false [vFoo1] false [rawNoVal] St.present :=
  c8_value_validation_first false [] [vFoo1] false [rawNoVal] (by decide)

/-- Auxiliary for C9: the fetch loop started at any page at or before the
first empty page returns the concatenation of the pages from there up to the
first empty one. -/
theorem listLoop_firstEmpty (fetch : Nat → List Variable) (k : Nat)
    (hempty : fetch k = []) (hne : ∀ i, 1 ≤ i → i < k → fetch i ≠ []) :
    ∀ fuel page, 1 ≤ page → page ≤ k → k - page < fuel →
      listLoop fetch fuel page = ((List.range' page (k - page)).map fetch).flatten := by
  intro fuel
  induction fuel with
  | zero =>
    intro page h1 h2 h3
    omega
  | succ fuel ih =>
    intro page h1 h2 h3
    by_cases hpk : page = k
    · subst hpk
      simp [listLoop, hempty]
    · have hlt : page < k := lt_of_le_of_ne h2 hpk
      have hne2 : fetch page ≠ [] := hne page h1 hlt
      simp only [listLoop]
      rw [if_neg hne2, ih (page + 1) (by omega) (by omega) (by omega)]
      have hk : k - page = (k - (page + 1)) + 1 := by omega
      rw [hk, List.range'_succ]
      simp

/-- C9: when page `k` is the first empty page (every earlier page from 1 on
is non-empty) and the fuel covers it, `list_all_instance_variables` fetches
pages starting at page 1 and returns the concatenation of all the non-empty
pages before the first empty one. -/
theorem c9_pagination (fetch : Nat → List Variable) (k fuel : Nat)
    (hk : 1 ≤ k) (hempty : fetch k = [])
    (hne : ∀ i, 1 ≤ i → i < k → fetch i ≠ []) (hfuel : k ≤ fuel) :
    list_all_instance_variables fetch fuel
      = ((List.range' 1 (k - 1)).map fetch).flatten := by
  have h := listLoop_firstEmpty fetch k hempty hne fuel 1 (by omega) hk (by omega)
  simpa [list_all_instance_variables] using h

/-- C9 witness: a fetch with one non-empty page aggregates exactly that
page. -/
theorem c9_pagination_witness :
    list_all_instance_variables (fun i => if i = 1 then [vFoo1] else []) 2
      = ((List.range' 1 (2 - 1)).map (fun i => if i = 1 then [vFoo1] else [])).flatten :=
  c9_pagination (fun i => if i = 1 then [vFoo1] else []) 2 2 (by decide) (by decide)
    (fun i h1 h2 => by
      have hi : i = 1 := by omega
      rw [hi]
      decide)
    (by decide)

/-- C10: `compare` returns three empty lists when state is not present, and
consequently every check-mode invocation with state absent has empty added,
updated and untouched outcome lists, whatever the desired and remote sets
are. -/
theorem c10_absent_compare_empty (requested existing : List Variable)
    (server : List Variable) (purge : Bool) (raws : List RawVariable)
    (chg : Bool) (out : NOut) (before after : List Variable)
    (h : native_python_main true server purge raws St.absent = some (chg, out, before, after)) :
    compare requested existing St.absent = ([], [], []) ∧
      out.added = [] ∧ out.updated = [] ∧ out.untouched = [] := by
  refine ⟨rfl, ?_⟩
  rw [native_absent_eq] at h
  cases purge
  case false =>
    rw [if_neg Bool.false_ne_true] at h
    obtain ⟨hchg, hrv, hbef, haft⟩ := tuple4_eq (Option.some.inj h)
    rw [← hrv]
    exact ⟨rfl, rfl, rfl⟩
  case true =>
    rw [if_pos rfl] at h
    obtain ⟨hchg, hrv, hbef, haft⟩ := tuple4_eq (Option.some.inj h)
    rw [← hrv]
    exact ⟨rfl, rfl, rfl⟩

/-- C10 witness: a check-mode absent run that would remove FOO still reports
empty added, updated and untouched lists. -/
theorem c10_absent_compare_empty_witness :
    compare [vFoo1] [vFoo2] St.absent = ([], [], []) ∧
      NOut.added { added := [], updated := [], removed := [Entry.stripped (stripVar vFoo1)], untouched := [] } = [] ∧
      NOut.updated { added := [], updated := [], removed := [Entry.stripped (stripVar vFoo1)], untouched := [] } = [] ∧
      NOut.untouched { added := [], updated := [], removed := [Entry.stripped (stripVar vFoo1)], untouched := [] } = [] :=
  c10_absent_compare_empty [vFoo1] [vFoo2] [vFoo1] false [rawFoo1] true
    { added := [], updated := [], removed := [Entry.stripped (stripVar vFoo1)], untouched := [] }
    [vFoo1] [vFoo1] (by decide)

end GLIV
